import Mathlib

/-!
Shallow embedding of the Imrohoroglu (1989) business-cycle consumption-savings
notebook: model configuration, the utility/budget tables, the Bellman operator
and the value-iteration loop, the Euler-equation time-iteration operator, the
stationary-distribution iteration, and the welfare comparison.

Arrays are embedded as total functions on `ℕ` together with the explicit grid
bounds `Na`, `Ns`; entries at indices outside the grid are junk values that no
theorem depends on.  Floating-point numbers are embedded as real numbers.
-/

open Classical

noncomputable section

/-- Model configuration: the fields of `BusinessCycleModel` that the solvers
read.  `P` is the state-transition matrix, `a_vals` the asset grid and
`y_vals` the income-state values. -/
structure Model where
  beta : ℝ
  sigma : ℝ
  R_save : ℝ
  R_borrow : ℝ
  Na : ℕ
  Ns : ℕ
  a_vals : ℕ → ℝ
  y_vals : ℕ → ℝ
  P : ℕ → ℕ → ℝ

/-- `R_func` from the value-iteration operator factory: the asset-dependent
gross return, `R_save` for nonnegative positions and `R_borrow` otherwise. -/
def R_func (m : Model) (a : ℝ) : ℝ :=
  if a ≥ 0 then m.R_save else m.R_borrow

/-- `U_func`: CRRA felicity, `log c` at `sigma = 1`, else
`c^(1-sigma)/(1-sigma)`. -/
def U_func (m : Model) (c : ℝ) : ℝ :=
  if m.sigma = 1 then Real.log c else c ^ (1 - m.sigma) / (1 - m.sigma)

/-- The consumption table `c[a0, s0, a1]` built by `util`. -/
def util_c (m : Model) (a0 s0 a1 : ℕ) : ℝ :=
  m.a_vals a0 + m.y_vals s0 - m.a_vals a1 / R_func m (m.a_vals a1)

/-- The utility table `u[a0, s0, a1]` built by `util`: the sentinel `-1e20`
when consumption is nonpositive, else `U_func` of consumption. -/
def util_u (m : Model) (a0 s0 a1 : ℕ) : ℝ :=
  if util_c m a0 s0 a1 ≤ 0 then -1e20 else U_func m (util_c m a0 s0 a1)

/-- `util()`: the pair of tables `(c, u)`. -/
def util (m : Model) : (ℕ → ℕ → ℕ → ℝ) × (ℕ → ℕ → ℕ → ℝ) :=
  (util_c m, util_u m)

/-- Next-asset indices with positive tabulated consumption at `(a0, s0)`. -/
def feas (m : Model) (c : ℕ → ℕ → ℕ → ℝ) (a0 s0 : ℕ) : Finset ℕ :=
  (Finset.range m.Na).filter fun a1 => 0 < c a0 s0 a1

/-- `np.argwhere(c[a0,s0,:] > 0).max()`: the largest feasible next-asset
index.  The source crashes when the set is empty; the embedding returns the
junk value `0` there (see `Tdefined`). -/
def lastFeas (m : Model) (c : ℕ → ℕ → ℕ → ℝ) (a0 s0 : ℕ) : ℕ :=
  ((feas m c a0 s0).max).unbot' 0

/-- Candidate value `u[a0,s0,a1] + beta * (P[s0] @ v[a1,:])`. -/
def v_cand (m : Model) (u : ℕ → ℕ → ℕ → ℝ) (v : ℕ → ℕ → ℝ) (a0 s0 a1 : ℕ) : ℝ :=
  u a0 s0 a1 + m.beta * ∑ s1 in Finset.range m.Ns, m.P s0 s1 * v a1 s1

/-- One cell of the Bellman update: `np.max(v_vals)` over `a1 = 0 .. Na1`. -/
def TcellV (m : Model) (u c : ℕ → ℕ → ℕ → ℝ) (v : ℕ → ℕ → ℝ) (a0 s0 : ℕ) : ℝ :=
  (Finset.Iic (lastFeas m c a0 s0)).sup' Finset.nonempty_Iic (v_cand m u v a0 s0)

lemma TcellPol_filter_nonempty (m : Model) (u c : ℕ → ℕ → ℕ → ℝ)
    (v : ℕ → ℕ → ℝ) (a0 s0 : ℕ) :
    ((Finset.Iic (lastFeas m c a0 s0)).filter fun a1 =>
      v_cand m u v a0 s0 a1 = TcellV m u c v a0 s0).Nonempty := by
  obtain ⟨b, hb, he⟩ :=
    Finset.exists_mem_eq_sup' (Finset.nonempty_Iic (a := lastFeas m c a0 s0))
      (v_cand m u v a0 s0)
  exact ⟨b, Finset.mem_filter.2 ⟨hb, by rw [TcellV, ← he]⟩⟩

/-- One cell of the greedy policy: `np.argmax(v_vals)`, the first maximizing
index in `0 .. Na1`. -/
def TcellPol (m : Model) (u c : ℕ → ℕ → ℕ → ℝ) (v : ℕ → ℕ → ℝ) (a0 s0 : ℕ) : ℕ :=
  ((Finset.Iic (lastFeas m c a0 s0)).filter fun a1 =>
      v_cand m u v a0 s0 a1 = TcellV m u c v a0 s0).min'
    (TcellPol_filter_nonempty m u c v a0 s0)

/-- One cell of the implied consumption `gamma`, recovered from the chosen
index via the budget identity. -/
def TcellGam (m : Model) (u c : ℕ → ℕ → ℕ → ℝ) (v : ℕ → ℕ → ℝ) (a0 s0 : ℕ) : ℝ :=
  m.a_vals a0 + m.y_vals s0 -
    m.a_vals (TcellPol m u c v a0 s0) / R_func m (m.a_vals (TcellPol m u c v a0 s0))

/-- The Bellman operator `T(v, u, c)`: new value function, greedy policy and
implied consumption.  Every output cell is computed from the input `v` alone
(the new arrays are written, never read, within a sweep). -/
def T (m : Model) (u c : ℕ → ℕ → ℕ → ℝ) (v : ℕ → ℕ → ℝ) :
    (ℕ → ℕ → ℝ) × (ℕ → ℕ → ℕ) × (ℕ → ℕ → ℝ) :=
  (TcellV m u c v, TcellPol m u c v, TcellGam m u c v)

/-- Definedness of a Bellman sweep: every in-grid cell has a nonempty feasible
set, so the source's `.max()` call does not crash. -/
def Tdefined (m : Model) (c : ℕ → ℕ → ℕ → ℝ) : Prop :=
  ∀ a0, a0 < m.Na → ∀ s0, s0 < m.Ns → (feas m c a0 s0).Nonempty

/-- `np.max(np.abs(v - v_new))` over the grid (junk `0` on an empty grid). -/
def supErr (m : Model) (v vn : ℕ → ℕ → ℝ) : ℝ :=
  ((((Finset.range m.Na) ×ˢ (Finset.range m.Ns)).image fun p =>
    |v p.1 p.2 - vn p.1 p.2|).max).unbot' 0

/-- Loop state of `solve_model_value_iteration`. -/
structure VIState where
  v : ℕ → ℕ → ℝ
  policy : ℕ → ℕ → ℕ
  gamma : ℕ → ℕ → ℝ
  error : ℝ
  iter : ℕ

/-- One execution of the while-loop body: apply `T`, measure the sup-norm
error against the previous iterate, bump the counter. -/
def viStep (m : Model) (u c : ℕ → ℕ → ℕ → ℝ) (st : VIState) : VIState :=
  { v := TcellV m u c st.v
    policy := TcellPol m u c st.v
    gamma := TcellGam m u c st.v
    error := supErr m st.v (TcellV m u c st.v)
    iter := st.iter + 1 }

/-- `while i < max_iter and error > tol`, with the remaining iteration budget
as fuel. -/
def viLoop (m : Model) (u c : ℕ → ℕ → ℕ → ℝ) (tol : ℝ) : ℕ → VIState → VIState
  | 0, st => st
  | k + 1, st => if st.error ≤ tol then st else viLoop m u c tol k (viStep m u c st)

/-- Initial loop state: `v = 0`, `error = tol + 1`, `i = 0` (policy and gamma
are uninitialized names in the source; junk `0` here). -/
def viInit (tol : ℝ) : VIState :=
  ⟨fun _ _ => 0, fun _ _ => 0, fun _ _ => 0, tol + 1, 0⟩

/-- Full run of the value-iteration loop. -/
def viRun (m : Model) (tol : ℝ) (max_iter : ℕ) : VIState :=
  viLoop m (util m).2 (util m).1 tol max_iter (viInit tol)

/-- `solve_model_value_iteration(bcm, tol, max_iter)`: returns exactly
`(v, policy, gamma)` from the last executed sweep - nothing else. -/
def solve_model_value_iteration (m : Model) (tol : ℝ) (max_iter : ℕ) :
    (ℕ → ℕ → ℝ) × (ℕ → ℕ → ℕ) × (ℕ → ℕ → ℝ) :=
  ((viRun m tol max_iter).v, (viRun m tol max_iter).policy,
    (viRun m tol max_iter).gamma)

/-- Number of sweeps the loop executed (the source's `i`). -/
def viIters (m : Model) (tol : ℝ) (max_iter : ℕ) : ℕ :=
  (viRun m tol max_iter).iter

/-- The source prints "Failed to converge!" exactly when `i == max_iter`
after the loop. -/
def viFailedFlag (m : Model) (tol : ℝ) (max_iter : ℕ) : Prop :=
  viIters m tol max_iter = max_iter

/-- One sweep of `dist_iter`: mass at `(a0, s0)` is pushed to
`(policy[a0, s0], s1)` with weight `P[s0, s1]`, accumulated into a zeroed new
array. -/
def dist_iter (m : Model) (policy : ℕ → ℕ → ℕ) (pmf : ℕ → ℕ → ℝ) : ℕ → ℕ → ℝ :=
  fun a1 s1 => ∑ a0 in Finset.range m.Na, ∑ s0 in Finset.range m.Ns,
    if policy a0 s0 = a1 then m.P s0 s1 * pmf a0 s0 else 0

/-- Total probability mass on the grid. -/
def totalMass (m : Model) (pmf : ℕ → ℕ → ℝ) : ℝ :=
  ∑ a in Finset.range m.Na, ∑ s in Finset.range m.Ns, pmf a s

/-- The uniform initialization `np.ones_like(policy) * (1/(Na*Ns))`. -/
def uniformPmf (m : Model) : ℕ → ℕ → ℝ :=
  fun _ _ => 1 / (m.Na * m.Ns)

/-- Loop state of `solve_invariant_dist`. -/
structure DistState where
  pmf : ℕ → ℕ → ℝ
  error : ℝ
  iter : ℕ

/-- One execution of the distribution-iteration loop body. -/
def distStep (m : Model) (policy : ℕ → ℕ → ℕ) (st : DistState) : DistState :=
  { pmf := dist_iter m policy st.pmf
    error := supErr m st.pmf (dist_iter m policy st.pmf)
    iter := st.iter + 1 }

/-- `while i < max_iter and error > tol` for the distribution iteration. -/
def distLoop (m : Model) (policy : ℕ → ℕ → ℕ) (tol : ℝ) :
    ℕ → DistState → DistState
  | 0, st => st
  | k + 1, st =>
    if st.error ≤ tol then st else distLoop m policy tol k (distStep m policy st)

/-- `solve_invariant_dist(bcm, policy, tol, max_iter)`: iterate `dist_iter`
from the uniform pmf (initial `error = 1 + tol`). -/
def solve_invariant_dist (m : Model) (policy : ℕ → ℕ → ℕ) (tol : ℝ)
    (max_iter : ℕ) : ℕ → ℕ → ℝ :=
  (distLoop m policy tol max_iter ⟨uniformPmf m, 1 + tol, 0⟩).pmf

/-- The hardcoded 4-state transition matrix selected by
`business_cycle=True`. -/
def P_bc : ℕ → ℕ → ℝ := fun i j =>
  if i = 0 then
    (if j = 0 then 0.9141 else if j = 1 then 0.0234 else
     if j = 2 then 0.0587 else if j = 3 then 0.0038 else 0)
  else if i = 1 then
    (if j = 0 then 0.5625 else if j = 1 then 0.3750 else
     if j = 2 then 0.0269 else if j = 3 then 0.0356 else 0)
  else if i = 2 then
    (if j = 0 then 0.0608 else if j = 1 then 0.0016 else
     if j = 2 then 0.8813 else if j = 3 then 0.0563 else 0)
  else if i = 3 then
    (if j = 0 then 0.0375 else if j = 1 then 0.0250 else
     if j = 2 then 0.4031 else if j = 3 then 0.5344 else 0)
  else 0

/-- The hardcoded 2-state transition matrix selected by
`business_cycle=False`. -/
def P_nbc : ℕ → ℕ → ℝ := fun i j =>
  if i = 0 then (if j = 0 then 0.9565 else if j = 1 then 0.0435 else 0)
  else if i = 1 then (if j = 0 then 0.5000 else if j = 1 then 0.5000 else 0)
  else 0

/-- `np.linspace(lo, hi, n)`. -/
def linspace (lo hi : ℝ) (n : ℕ) : ℕ → ℝ :=
  fun i => lo + i * ((hi - lo) / ((n : ℝ) - 1))

/-- `BusinessCycleModel.__init__`: computes the derived fields, selects the
hardcoded transition matrix from the `business_cycle` flag, and builds the
grids.  It performs no validation of its arguments. -/
def BusinessCycleModel.init (period r_save r_borrow y theta beta sigma : ℝ)
    (business_cycle : Bool) (a_max a_min : ℝ) (Na : ℕ) : Model :=
  { beta := beta
    sigma := sigma
    R_save := 1 + r_save
    R_borrow := (1 + r_borrow) ^ ((1 : ℝ) / (52 / period))
    Na := Na
    Ns := if business_cycle then 4 else 2
    a_vals := linspace a_min a_max Na
    y_vals := fun s => if s % 2 = 0 then y else y * theta
    P := if business_cycle then P_bc else P_nbc }

/-- The expected-lifetime-utility aggregate `np.sum(pmf * v)` of one economy,
with the value function and policy from value iteration at the source's
default tolerances and the stationary pmf from direct iteration. -/
def economyValue (m : Model) : ℝ :=
  ∑ a in Finset.range m.Na, ∑ s in Finset.range m.Ns,
    solve_invariant_dist m (solve_model_value_iteration m 1e-5 5000).2.1
      1e-7 2000 a s *
    (solve_model_value_iteration m 1e-5 5000).1 a s

/-- The risk economy constructed inside `compute_consumption_loss`. -/
def bcEconomy (sigma a_max : ℝ) (Na : ℕ) : Model :=
  BusinessCycleModel.init 6 0 0.08 1 0.25 0.995 sigma true a_max 0 Na

/-- The no-risk economy constructed inside `compute_consumption_loss`. -/
def nbcEconomy (sigma a_max : ℝ) (Na : ℕ) : Model :=
  BusinessCycleModel.init 6 0 0.08 1 0.25 0.995 sigma false a_max 0 Na

/-- `compute_consumption_loss(sigma, a_max, Na)`: solve both economies, form
the aggregates, and return the consumption-equivalent compensation
(`np.e ** x` in the source for the log-utility branch). -/
def compute_consumption_loss (sigma a_max : ℝ) (Na : ℕ) : ℝ :=
  if sigma = 1 then
    Real.exp 1 ^
      ((economyValue (nbcEconomy sigma a_max Na) -
        economyValue (bcEconomy sigma a_max Na)) *
       (1 - (bcEconomy sigma a_max Na).beta)) - 1
  else
    (economyValue (nbcEconomy sigma a_max Na) /
      economyValue (bcEconomy sigma a_max Na)) ^ ((1 : ℝ) / (1 - sigma)) - 1

/-- `u_prime(c) = c ** (-sigma)` from the time-iteration operator factory. -/
def u_prime (m : Model) (c : ℝ) : ℝ :=
  c ^ (-m.sigma)

/-- Modelled from the spec: the `interp` routine of the `interpolation`
package used by the source (not part of this repository) - piecewise-linear
interpolation on the grid `xs` of length `n`, with linear extrapolation from
the boundary segments outside the grid. -/
def interpF (xs ys : ℕ → ℝ) (n : ℕ) (x : ℝ) : ℝ :=
  let k := min (n - 2) (((Finset.range n).filter fun i => xs i ≤ x).card - 1)
  ys k + (ys (k + 1) - ys k) * (x - xs k) / (xs (k + 1) - xs k)

/-- `euler_diff(c, a, s, gamma_vals)`: the difference between the two sides of
the Euler equation at consumption `c`, state `(a, s)` and current
interpolated consumption policy `gamma_vals`. -/
def euler_diff (m : Model) (c a : ℝ) (s : ℕ) (gamma_vals : ℕ → ℕ → ℝ) : ℝ :=
  u_prime m c -
    max (m.beta * m.R_save *
          ∑ s1 in Finset.range m.Ns,
            u_prime m (interpF m.a_vals (fun i => gamma_vals i s1) m.Na
              (m.R_save * (a - c + m.y_vals s))) * m.P s s1)
      (u_prime m (a + m.y_vals s))

/-- Modelled from the spec: `quantecon.optimize.brentq` (not part of this
repository).  It raises `ValueError("f(a) and f(b) must have different
signs")` when the bracket endpoints have a same-sign product, returns an
endpoint that is an exact root immediately, and otherwise performs Brent
root-finding inside the bracket - idealized here, in exact real arithmetic,
as some exact root strictly inside the bracket when one exists, and the
`disp=True` non-convergence error otherwise. -/
def brentq (f : ℝ → ℝ) (a b : ℝ) : Except String ℝ :=
  if f a * f b > 0 then Except.error "f(a) and f(b) must have different signs"
  else if f b = 0 then Except.ok b
  else if f a = 0 then Except.ok a
  else if h : ∃ x ∈ Set.Ioo a b, f x = 0 then Except.ok h.choose
  else Except.error "Failed to converge"

/-- One cell of the operator `K`: root-find `euler_diff` in consumption over
the bracket `(1e-8, a + y(s))`. -/
def Kcell (m : Model) (gamma : ℕ → ℕ → ℝ) (i s : ℕ) : Except String ℝ :=
  brentq (fun c => euler_diff m c (m.a_vals i) s gamma) 1e-8
    (m.a_vals i + m.y_vals s)

/-- The root recorded at one cell (junk `0` where `Kcell` failed). -/
def Kroot (m : Model) (gamma : ℕ → ℕ → ℝ) (i s : ℕ) : ℝ :=
  ((Kcell m gamma i s).toOption).getD 0

/-- The row-major position of the first failing cell, in the source's loop
order (`i` outer, `s` inner). -/
def KfailIdx (m : Model) (gamma : ℕ → ℕ → ℝ) : ℕ :=
  (((((Finset.range m.Na) ×ˢ (Finset.range m.Ns)).filter fun p =>
    ¬ ∃ r, Kcell m gamma p.1 p.2 = Except.ok r).image fun p =>
      p.1 * m.Ns + p.2).min).untop' 0

/-- The message carried by a raised error (junk `""` on a success value). -/
def errOf {α : Type} : Except String α → String
  | Except.error e => e
  | Except.ok _ => ""

/-- The error raised by the first failing cell of the `K` sweep. -/
def KfirstErr (m : Model) (gamma : ℕ → ℕ → ℝ) : String :=
  errOf (Kcell m gamma (KfailIdx m gamma / m.Ns) (KfailIdx m gamma % m.Ns))

/-- The operator `K(gamma)`: a full sweep of Euler-equation root-finding.  A
raised exception in any cell aborts the sweep (no policy is produced); on
success it returns `(gamma_new, asset_policy)` with
`asset_policy = R * (a - c + y(s))`. -/
def K (m : Model) (gamma : ℕ → ℕ → ℝ) :
    Except String ((ℕ → ℕ → ℝ) × (ℕ → ℕ → ℝ)) :=
  if ∀ i, i < m.Na → ∀ s, s < m.Ns → ∃ r, Kcell m gamma i s = Except.ok r then
    Except.ok (fun i s => Kroot m gamma i s,
      fun i s => m.R_save * (m.a_vals i - Kroot m gamma i s + m.y_vals s))
  else Except.error (KfirstErr m gamma)

/-! ## Claim C1: the utility/budget evaluator -/

/-- **C1**: for every grid indices `a0`, `a1` and state `s0`, the evaluator
computes consumption `c = a_vals[a0] + y_vals[s0] - a_vals[a1]/R(a_vals[a1])`
with `R(x) = R_save` if `x ≥ 0` else `R_borrow`, utility `ln c` if `σ = 1`
else `c^(1-σ)/(1-σ)` when `c > 0`, and the sentinel `-1e20` (a value, not an
error) whenever `c ≤ 0`. -/
theorem claim_C1_util_formula (m : Model) (a0 s0 a1 : ℕ) :
    util_c m a0 s0 a1 =
      m.a_vals a0 + m.y_vals s0 -
        m.a_vals a1 / (if m.a_vals a1 ≥ 0 then m.R_save else m.R_borrow) ∧
    util_u m a0 s0 a1 =
      (if util_c m a0 s0 a1 ≤ 0 then -1e20
       else if m.sigma = 1 then Real.log (util_c m a0 s0 a1)
       else util_c m a0 s0 a1 ^ (1 - m.sigma) / (1 - m.sigma)) := by
  exact ⟨rfl, rfl⟩

/-! ## Claims C9 and C2: contiguous feasibility and the Bellman operator -/

lemma R_div_strictMono (m : Model) (hRs : 0 < m.R_save) (hRb : 0 < m.R_borrow)
    {x y : ℝ} (hxy : x < y) : x / R_func m x < y / R_func m y := by
  unfold R_func
  rcases le_or_lt 0 x with hx | hx
  · have hy : (0 : ℝ) ≤ y := hx.trans hxy.le
    rw [if_pos (show x ≥ 0 from hx), if_pos (show y ≥ 0 from hy)]
    gcongr
  · rcases lt_or_le y 0 with hy | hy
    · rw [if_neg (not_le.2 hx), if_neg (not_le.2 hy)]
      gcongr
    · rw [if_neg (not_le.2 hx), if_pos (show y ≥ 0 from hy)]
      exact lt_of_lt_of_le (div_neg_of_neg_of_pos hx hRb) (div_nonneg hy hRs.le)

lemma util_c_strictAnti (m : Model) (hRs : 0 < m.R_save)
    (hRb : 0 < m.R_borrow)
    (hmono : ∀ i j : ℕ, i < j → j < m.Na → m.a_vals i < m.a_vals j)
    (a0 s0 : ℕ) {i j : ℕ} (hij : i < j) (hj : j < m.Na) :
    util_c m a0 s0 j < util_c m a0 s0 i := by
  unfold util_c
  have := R_div_strictMono m hRs hRb (hmono i j hij hj)
  linarith

lemma feas_eq_Iic (m : Model) (hRs : 0 < m.R_save) (hRb : 0 < m.R_borrow)
    (hmono : ∀ i j : ℕ, i < j → j < m.Na → m.a_vals i < m.a_vals j)
    (a0 s0 : ℕ) (h : (feas m (util_c m) a0 s0).Nonempty) :
    feas m (util_c m) a0 s0 =
      Finset.Iic ((feas m (util_c m) a0 s0).max' h) := by
  have hN := Finset.max'_mem _ h
  simp only [feas, Finset.mem_filter, Finset.mem_range] at hN
  ext i
  simp only [Finset.mem_Iic]
  constructor
  · exact fun hi => Finset.le_max' _ i hi
  · intro hi
    simp only [feas, Finset.mem_filter, Finset.mem_range]
    rcases eq_or_lt_of_le hi with rfl | hlt
    · exact hN
    · exact ⟨hi.trans_lt hN.1,
        hN.2.trans (util_c_strictAnti m hRs hRb hmono a0 s0 hlt hN.1)⟩

lemma lastFeas_eq (m : Model) (c : ℕ → ℕ → ℕ → ℝ) (a0 s0 : ℕ)
    (h : (feas m c a0 s0).Nonempty) :
    lastFeas m c a0 s0 = (feas m c a0 s0).max' h := by
  rw [lastFeas, ← Finset.coe_max' h, WithBot.unbot'_coe]

/-- **C9**: for every cell `(a0, s0)`, the tabulated consumption is strictly
decreasing in the next-asset index (given an ascending asset grid and
positive gross returns `R_save`, `R_borrow`), so positivity of consumption is
downward closed in the index, and the feasible set is exactly the indices
from `0` up to the last positive-consumption index. -/
theorem claim_C9_contiguous_feasibility (m : Model) (hRs : 0 < m.R_save)
    (hRb : 0 < m.R_borrow)
    (hmono : ∀ i j : ℕ, i < j → j < m.Na → m.a_vals i < m.a_vals j)
    (a0 s0 : ℕ) :
    (∀ i j : ℕ, i < j → j < m.Na →
      util_c m a0 s0 j < util_c m a0 s0 i) ∧
    (∀ i j : ℕ, i ≤ j → j < m.Na → 0 < util_c m a0 s0 j →
      0 < util_c m a0 s0 i) ∧
    ∀ h : (feas m (util_c m) a0 s0).Nonempty,
      feas m (util_c m) a0 s0 =
        Finset.Iic ((feas m (util_c m) a0 s0).max' h) := by
  refine ⟨fun i j hij hj => util_c_strictAnti m hRs hRb hmono a0 s0 hij hj,
    fun i j hij hj hpos => ?_, fun h => feas_eq_Iic m hRs hRb hmono a0 s0 h⟩
  rcases eq_or_lt_of_le hij with rfl | hlt
  · exact hpos
  · exact hpos.trans (util_c_strictAnti m hRs hRb hmono a0 s0 hlt hj)

/-- Witness for C9 at a concrete two-point model. -/
def m9 : Model :=
  { beta := 0.5, sigma := 2, R_save := 1, R_borrow := 1, Na := 2, Ns := 1,
    a_vals := fun i => (i : ℝ), y_vals := fun _ => 1, P := fun _ _ => 1 }

/-- Witness for `claim_C9_contiguous_feasibility` at `m9`. -/
theorem claim_C9_witness :
    ((0 : ℝ) < m9.R_save ∧ (0 : ℝ) < m9.R_borrow ∧
      (∀ i j : ℕ, i < j → j < m9.Na → m9.a_vals i < m9.a_vals j)) ∧
    ((∀ i j : ℕ, i < j → j < m9.Na →
        util_c m9 0 0 j < util_c m9 0 0 i) ∧
      (∀ i j : ℕ, i ≤ j → j < m9.Na → 0 < util_c m9 0 0 j →
        0 < util_c m9 0 0 i) ∧
      ∀ h : (feas m9 (util_c m9) 0 0).Nonempty,
        feas m9 (util_c m9) 0 0 =
          Finset.Iic ((feas m9 (util_c m9) 0 0).max' h)) := by
  have h1 : (0 : ℝ) < m9.R_save := by norm_num [m9]
  have h2 : (0 : ℝ) < m9.R_borrow := by norm_num [m9]
  have h3 : ∀ i j : ℕ, i < j → j < m9.Na → m9.a_vals i < m9.a_vals j := by
    intro i j hij _
    simpa [m9] using hij
  exact ⟨⟨h1, h2, h3⟩, claim_C9_contiguous_feasibility m9 h1 h2 h3 0 0⟩

/-- **C2**: for every value function `v` and cell `(a0, s0)` (with nonempty
feasible set, ascending grid, positive returns), one application of the
Bellman operator `T` returns as new value the maximum over the feasible
next-asset indices of `u[a0,s0,a1] + β (P[s0] · v[a1,:])`, as policy the
first index attaining that maximum, and as implied consumption the budget
identity evaluated at the chosen index; the new cell value is a function of
the input `v` alone, so no cell's new value reads another cell's new value
within a sweep. -/
theorem claim_C2_bellman_cell (m : Model) (hRs : 0 < m.R_save)
    (hRb : 0 < m.R_borrow)
    (hmono : ∀ i j : ℕ, i < j → j < m.Na → m.a_vals i < m.a_vals j)
    (v : ℕ → ℕ → ℝ) (a0 s0 : ℕ)
    (h : (feas m (util_c m) a0 s0).Nonempty) :
    (T m (util_u m) (util_c m) v).1 a0 s0 =
      (feas m (util_c m) a0 s0).sup' h (fun a1 =>
        util_u m a0 s0 a1 +
          m.beta * ∑ s1 in Finset.range m.Ns, m.P s0 s1 * v a1 s1) ∧
    (T m (util_u m) (util_c m) v).2.1 a0 s0 ∈ feas m (util_c m) a0 s0 ∧
    util_u m a0 s0 ((T m (util_u m) (util_c m) v).2.1 a0 s0) +
        m.beta * ∑ s1 in Finset.range m.Ns,
          m.P s0 s1 * v ((T m (util_u m) (util_c m) v).2.1 a0 s0) s1 =
      (T m (util_u m) (util_c m) v).1 a0 s0 ∧
    (∀ j ∈ feas m (util_c m) a0 s0,
      util_u m a0 s0 j +
          m.beta * ∑ s1 in Finset.range m.Ns, m.P s0 s1 * v j s1 =
        (T m (util_u m) (util_c m) v).1 a0 s0 →
      (T m (util_u m) (util_c m) v).2.1 a0 s0 ≤ j) ∧
    (T m (util_u m) (util_c m) v).2.2 a0 s0 =
      m.a_vals a0 + m.y_vals s0 -
        m.a_vals ((T m (util_u m) (util_c m) v).2.1 a0 s0) /
          R_func m (m.a_vals ((T m (util_u m) (util_c m) v).2.1 a0 s0)) := by
  have hIic : Finset.Iic (lastFeas m (util_c m) a0 s0) =
      feas m (util_c m) a0 s0 := by
    rw [lastFeas_eq m (util_c m) a0 s0 h]
    exact (feas_eq_Iic m hRs hRb hmono a0 s0 h).symm
  have hsup : (T m (util_u m) (util_c m) v).1 a0 s0 =
      (feas m (util_c m) a0 s0).sup' h (fun a1 =>
        util_u m a0 s0 a1 +
          m.beta * ∑ s1 in Finset.range m.Ns, m.P s0 s1 * v a1 s1) := by
    show TcellV m (util_u m) (util_c m) v a0 s0 = _
    rw [TcellV]
    exact Finset.sup'_congr _ hIic fun a1 _ => rfl
  have hpolmem := Finset.min'_mem _
    (TcellPol_filter_nonempty m (util_u m) (util_c m) v a0 s0)
  rw [Finset.mem_filter] at hpolmem
  refine ⟨hsup, ?_, ?_, ?_, rfl⟩
  · rw [← hIic]
    exact hpolmem.1
  · exact hpolmem.2
  · intro j hj hjmax
    apply Finset.min'_le
    rw [Finset.mem_filter, hIic]
    exact ⟨hj, hjmax⟩

/-- Witness model for C2, C7: a one-cell economy with `β = 0`. -/
def m7 : Model :=
  { beta := 0, sigma := 2, R_save := 1, R_borrow := 1, Na := 1, Ns := 1,
    a_vals := fun _ => 0, y_vals := fun _ => 1, P := fun _ _ => 1 }

lemma m7_util_c (a0 s0 a1 : ℕ) : util_c m7 a0 s0 a1 = 1 := by
  simp [util_c, m7]

lemma m7_feas_nonempty (a0 s0 : ℕ) :
    (feas m7 (util_c m7) a0 s0).Nonempty := by
  refine ⟨0, ?_⟩
  simp only [feas, Finset.mem_filter, Finset.mem_range, m7_util_c]
  exact ⟨by norm_num [m7], by norm_num⟩

/-- Witness for `claim_C2_bellman_cell` at the concrete model `m7`. -/
theorem claim_C2_witness :
    ∃ h : (feas m7 (util_c m7) 0 0).Nonempty,
      (T m7 (util_u m7) (util_c m7) (fun _ _ => 0)).1 0 0 =
        (feas m7 (util_c m7) 0 0).sup' h (fun a1 =>
          util_u m7 0 0 a1 +
            m7.beta * ∑ s1 in Finset.range m7.Ns,
              m7.P 0 s1 * (fun _ _ => (0 : ℝ)) a1 s1) ∧
      (T m7 (util_u m7) (util_c m7) (fun _ _ => 0)).2.1 0 0 ∈
        feas m7 (util_c m7) 0 0 := by
  have h := m7_feas_nonempty 0 0
  have h1 : (0 : ℝ) < m7.R_save := by norm_num [m7]
  have h2 : (0 : ℝ) < m7.R_borrow := by norm_num [m7]
  have h3 : ∀ i j : ℕ, i < j → j < m7.Na → m7.a_vals i < m7.a_vals j := by
    intro i j hij hj
    have : j = 0 := by
      have : m7.Na = 1 := rfl
      omega
    omega
  obtain ⟨c1, c2, -⟩ :=
    claim_C2_bellman_cell m7 h1 h2 h3 (fun _ _ => 0) 0 0 h
  exact ⟨h, c1, c2⟩

/-! ## Claim C5: mass conservation of the distribution iteration -/

lemma dist_iter_mass (m : Model) (policy : ℕ → ℕ → ℕ)
    (hP : ∀ s0, s0 < m.Ns → ∑ s1 in Finset.range m.Ns, m.P s0 s1 = 1)
    (hpol : ∀ a0 s0, a0 < m.Na → s0 < m.Ns → policy a0 s0 < m.Na)
    (pmf : ℕ → ℕ → ℝ) :
    totalMass m (dist_iter m policy pmf) = totalMass m pmf := by
  simp only [totalMass, dist_iter]
  calc ∑ a1 in Finset.range m.Na, ∑ s1 in Finset.range m.Ns,
        ∑ a0 in Finset.range m.Na, ∑ s0 in Finset.range m.Ns,
          (if policy a0 s0 = a1 then m.P s0 s1 * pmf a0 s0 else 0)
      = ∑ p in Finset.range m.Na ×ˢ Finset.range m.Ns,
          ∑ a0 in Finset.range m.Na, ∑ s0 in Finset.range m.Ns,
            (if policy a0 s0 = p.1 then m.P s0 p.2 * pmf a0 s0 else 0) :=
        (Finset.sum_product' _ _ (fun a1 s1 =>
          ∑ a0 in Finset.range m.Na, ∑ s0 in Finset.range m.Ns,
            (if policy a0 s0 = a1 then m.P s0 s1 * pmf a0 s0 else 0))).symm
    _ = ∑ p in Finset.range m.Na ×ˢ Finset.range m.Ns,
          ∑ q in Finset.range m.Na ×ˢ Finset.range m.Ns,
            (if policy q.1 q.2 = p.1 then m.P q.2 p.2 * pmf q.1 q.2 else 0) :=
        Finset.sum_congr rfl fun p _ =>
          (Finset.sum_product' _ _ (fun a0 s0 =>
            (if policy a0 s0 = p.1 then m.P s0 p.2 * pmf a0 s0 else 0))).symm
    _ = ∑ q in Finset.range m.Na ×ˢ Finset.range m.Ns,
          ∑ p in Finset.range m.Na ×ˢ Finset.range m.Ns,
            (if policy q.1 q.2 = p.1 then m.P q.2 p.2 * pmf q.1 q.2 else 0) :=
        Finset.sum_comm
    _ = ∑ q in Finset.range m.Na ×ˢ Finset.range m.Ns, pmf q.1 q.2 := by
        refine Finset.sum_congr rfl fun q hq => ?_
        rw [Finset.mem_product, Finset.mem_range, Finset.mem_range] at hq
        have hmem : policy q.1 q.2 ∈ Finset.range m.Na :=
          Finset.mem_range.2 (hpol q.1 q.2 hq.1 hq.2)
        rw [Finset.sum_product' _ _ (fun a1 s1 =>
          (if policy q.1 q.2 = a1 then m.P q.2 s1 * pmf q.1 q.2 else 0))]
        calc ∑ a1 in Finset.range m.Na, ∑ s1 in Finset.range m.Ns,
              (if policy q.1 q.2 = a1 then m.P q.2 s1 * pmf q.1 q.2 else 0)
            = ∑ a1 in Finset.range m.Na,
                (if policy q.1 q.2 = a1 then
                  ∑ s1 in Finset.range m.Ns, m.P q.2 s1 * pmf q.1 q.2 else 0) := by
              refine Finset.sum_congr rfl fun a1 _ => ?_
              split_ifs
              · rfl
              · exact Finset.sum_const_zero
          _ = ∑ s1 in Finset.range m.Ns, m.P q.2 s1 * pmf q.1 q.2 := by
              rw [Finset.sum_ite_eq, if_pos hmem]
          _ = (∑ s1 in Finset.range m.Ns, m.P q.2 s1) * pmf q.1 q.2 := by
              rw [Finset.sum_mul]
          _ = pmf q.1 q.2 := by rw [hP q.2 hq.2, one_mul]
    _ = ∑ a0 in Finset.range m.Na, ∑ s0 in Finset.range m.Ns, pmf a0 s0 :=
        Finset.sum_product' _ _ (fun a0 s0 => pmf a0 s0)

/-- **C5**: one sweep of the direct stationary-distribution iteration
conserves total mass for every pmf and every policy with in-range values
(because the rows of `P` sum to `1`); in particular every iterate from the
uniform initialization has total mass `1`. -/
theorem claim_C5_mass_conservation (m : Model) (policy : ℕ → ℕ → ℕ)
    (hP : ∀ s0, s0 < m.Ns → ∑ s1 in Finset.range m.Ns, m.P s0 s1 = 1)
    (hpol : ∀ a0 s0, a0 < m.Na → s0 < m.Ns → policy a0 s0 < m.Na)
    (hNa : 0 < m.Na) (hNs : 0 < m.Ns) :
    (∀ pmf, totalMass m (dist_iter m policy pmf) = totalMass m pmf) ∧
    ∀ n, totalMass m ((dist_iter m policy)^[n] (uniformPmf m)) = 1 := by
  refine ⟨dist_iter_mass m policy hP hpol, fun n => ?_⟩
  induction n with
  | zero =>
    simp only [Function.iterate_zero, id, totalMass, uniformPmf,
      Finset.sum_const, Finset.card_range, nsmul_eq_mul]
    have h1 : (m.Na : ℝ) ≠ 0 := Nat.cast_ne_zero.2 hNa.ne'
    have h2 : (m.Ns : ℝ) ≠ 0 := Nat.cast_ne_zero.2 hNs.ne'
    field_simp
  | succ n ih =>
    rw [Function.iterate_succ_apply', dist_iter_mass m policy hP hpol, ih]

/-- Witness model for C5: one asset point, two states, `P = [[.5,.5],[.5,.5]]`. -/
def m5 : Model :=
  { beta := 0, sigma := 2, R_save := 1, R_borrow := 1, Na := 1, Ns := 2,
    a_vals := fun _ => 0, y_vals := fun _ => 1, P := fun _ _ => 1 / 2 }

/-- Witness for `claim_C5_mass_conservation` at `m5`. -/
theorem claim_C5_witness :
    ((∀ s0, s0 < m5.Ns → ∑ s1 in Finset.range m5.Ns, m5.P s0 s1 = 1) ∧
      (∀ a0 s0, a0 < m5.Na → s0 < m5.Ns →
        (fun _ _ => 0 : ℕ → ℕ → ℕ) a0 s0 < m5.Na) ∧
      0 < m5.Na ∧ 0 < m5.Ns) ∧
    ((∀ pmf, totalMass m5 (dist_iter m5 (fun _ _ => 0) pmf) =
        totalMass m5 pmf) ∧
      ∀ n, totalMass m5
        ((dist_iter m5 (fun _ _ => 0))^[n] (uniformPmf m5)) = 1) := by
  have hP : ∀ s0, s0 < m5.Ns → ∑ s1 in Finset.range m5.Ns, m5.P s0 s1 = 1 := by
    intro s0 _
    show ∑ s1 in Finset.range 2, (1 : ℝ) / 2 = 1
    rw [Finset.sum_range_succ, Finset.sum_range_one]
    norm_num
  have hpol : ∀ a0 s0, a0 < m5.Na → s0 < m5.Ns →
      (fun _ _ => 0 : ℕ → ℕ → ℕ) a0 s0 < m5.Na := fun _ _ _ _ => Nat.one_pos
  have hNa : 0 < m5.Na := Nat.one_pos
  have hNs : 0 < m5.Ns := Nat.zero_lt_two
  exact ⟨⟨hP, hpol, hNa, hNs⟩,
    claim_C5_mass_conservation m5 (fun _ _ => 0) hP hpol hNa hNs⟩

/-! ## Claim C10: nonempty feasible sets under the income precondition -/

/-- **C10**: if `y(s0) + a_min (1 - 1/R(a_min)) > 0` for every state and the
grid is bounded below by its first point, then choosing next-asset index `0`
always yields positive consumption, so every in-grid cell has a nonempty
feasible set and the Bellman sweep is total (the feasibility scan never runs
on an empty set). -/
theorem claim_C10_T_total (m : Model) (hNa : 0 < m.Na)
    (hmin : ∀ i, i < m.Na → m.a_vals 0 ≤ m.a_vals i)
    (hpre : ∀ s0, s0 < m.Ns →
      0 < m.y_vals s0 + m.a_vals 0 * (1 - 1 / R_func m (m.a_vals 0))) :
    (∀ a0 s0, a0 < m.Na → s0 < m.Ns → 0 < util_c m a0 s0 0) ∧
    Tdefined m (util_c m) := by
  have key : ∀ a0 s0, a0 < m.Na → s0 < m.Ns → 0 < util_c m a0 s0 0 := by
    intro a0 s0 ha hs
    have h1 := hpre s0 hs
    have h2 := hmin a0 ha
    have h3 : m.a_vals 0 * (1 - 1 / R_func m (m.a_vals 0)) =
        m.a_vals 0 - m.a_vals 0 / R_func m (m.a_vals 0) := by ring
    rw [h3] at h1
    unfold util_c
    linarith
  refine ⟨key, fun a0 ha s0 hs => ⟨0, ?_⟩⟩
  simp only [feas, Finset.mem_filter, Finset.mem_range]
  exact ⟨hNa, key a0 s0 ha hs⟩

/-- The default-constructed risk economy (`BusinessCycleModel()` defaults):
`a_min = 0`, `a_max = 8`, `Na = 301`, 4 states. -/
def m10 : Model :=
  BusinessCycleModel.init 6 0 0.08 1 0.25 0.995 1.5 true 8 0 301

/-- Witness for `claim_C10_T_total` at the default-constructed model. -/
theorem claim_C10_witness :
    (0 < m10.Na ∧
      (∀ i, i < m10.Na → m10.a_vals 0 ≤ m10.a_vals i) ∧
      (∀ s0, s0 < m10.Ns →
        0 < m10.y_vals s0 + m10.a_vals 0 * (1 - 1 / R_func m10 (m10.a_vals 0)))) ∧
    ((∀ a0 s0, a0 < m10.Na → s0 < m10.Ns → 0 < util_c m10 a0 s0 0) ∧
      Tdefined m10 (util_c m10)) := by
  have hNa : 0 < m10.Na := by
    show (0 : ℕ) < 301
    norm_num
  have ha0 : m10.a_vals 0 = 0 := by
    show linspace 0 8 301 0 = 0
    simp [linspace]
  have hmin : ∀ i, i < m10.Na → m10.a_vals 0 ≤ m10.a_vals i := by
    intro i _
    rw [ha0]
    show (0 : ℝ) ≤ linspace 0 8 301 i
    simp only [linspace]
    positivity
  have hpre : ∀ s0, s0 < m10.Ns →
      0 < m10.y_vals s0 + m10.a_vals 0 * (1 - 1 / R_func m10 (m10.a_vals 0)) := by
    intro s0 _
    rw [ha0, zero_mul, add_zero]
    show (0 : ℝ) < if s0 % 2 = 0 then 1 else 1 * 0.25
    rcases Nat.mod_two_eq_zero_or_one s0 with h | h <;> rw [h] <;> norm_num
  exact ⟨⟨hNa, hmin, hpre⟩, claim_C10_T_total m10 hNa hmin hpre⟩

/-! ## Claim C6: model construction performs no validation -/

/-- **C6 (amended)**: `BusinessCycleModel.__init__` performs no validation and
always returns a model object with the given grid parameters; the transition
matrix is hardcoded by the `business_cycle` flag and each of its rows sums to
`1`, so a malformed `P` cannot arise from configuration. -/
theorem claim_C6_amended_no_validation
    (period r_save r_borrow y theta beta sigma : ℝ) (business_cycle : Bool)
    (a_max a_min : ℝ) (Na : ℕ) :
    (BusinessCycleModel.init period r_save r_borrow y theta beta sigma
      business_cycle a_max a_min Na).Na = Na ∧
    (BusinessCycleModel.init period r_save r_borrow y theta beta sigma
      business_cycle a_max a_min Na).a_vals = linspace a_min a_max Na ∧
    ∀ s, s < (BusinessCycleModel.init period r_save r_borrow y theta beta sigma
        business_cycle a_max a_min Na).Ns →
      ∑ s1 in Finset.range (BusinessCycleModel.init period r_save r_borrow y
          theta beta sigma business_cycle a_max a_min Na).Ns,
        (BusinessCycleModel.init period r_save r_borrow y theta beta sigma
          business_cycle a_max a_min Na).P s s1 = 1 := by
  refine ⟨rfl, rfl, ?_⟩
  intro s hs
  cases business_cycle with
  | false =>
    simp only [BusinessCycleModel.init, Bool.false_eq_true, if_false] at hs ⊢
    interval_cases s <;> norm_num [Finset.sum_range_succ, P_nbc]
  | true =>
    simp only [BusinessCycleModel.init, if_true] at hs ⊢
    interval_cases s <;> norm_num [Finset.sum_range_succ, P_bc]

/-- **C6 (counterexample)**: a malformed configuration - zero grid resolution
`Na = 0` together with `a_min = 5 > 0 = a_max` - still yields a model object
with readable fields; construction does not fail. -/
theorem claim_C6_counterexample :
    (BusinessCycleModel.init 6 0 0.08 1 0.25 0.995 1.5 true 0 5 0).Na = 0 ∧
    (BusinessCycleModel.init 6 0 0.08 1 0.25 0.995 1.5 true 0 5 0).a_vals 0 = 5 ∧
    (BusinessCycleModel.init 6 0 0.08 1 0.25 0.995 1.5 true 0 5 0).y_vals 0 = 1 ∧
    ((5 : ℝ) > 0) := by
  refine ⟨rfl, ?_, ?_, by norm_num⟩
  · show linspace 5 0 0 0 = 5
    simp [linspace]
  · show (if 0 % 2 = 0 then (1 : ℝ) else 1 * 0.25) = 1
    norm_num

/-- Witness for `claim_C6_amended_no_validation` at the default arguments. -/
theorem claim_C6_amended_witness :
    (BusinessCycleModel.init 6 0 0.08 1 0.25 0.995 1.5 true 8 0 301).Na = 301 ∧
    (0 : ℕ) < (BusinessCycleModel.init 6 0 0.08 1 0.25 0.995 1.5 true 8 0
      301).Ns ∧
    ∑ s1 in Finset.range (BusinessCycleModel.init 6 0 0.08 1 0.25 0.995 1.5
        true 8 0 301).Ns,
      (BusinessCycleModel.init 6 0 0.08 1 0.25 0.995 1.5 true 8 0 301).P 0 s1 =
      1 := by
  have h := claim_C6_amended_no_validation 6 0 0.08 1 0.25 0.995 1.5 true 8 0 301
  refine ⟨h.1, ?_, h.2.2 0 ?_⟩ <;> · show (0 : ℕ) < 4; norm_num

/-! ## Claim C4: the welfare comparator -/

/-- **C4**: the welfare comparator aggregates each economy as
`V = Σ pmf(a,s) · v(a,s)` over the full grid and returns
`μ = (V_norisk / V_risk)^(1/(1-σ)) - 1` for `σ ≠ 1` and
`μ = exp((V_norisk - V_risk)(1-β)) - 1` for `σ = 1`. -/
theorem claim_C4_welfare_formula (sigma a_max : ℝ) (Na : ℕ) :
    (∀ m : Model, economyValue m =
      ∑ a in Finset.range m.Na, ∑ s in Finset.range m.Ns,
        solve_invariant_dist m
            (solve_model_value_iteration m 1e-5 5000).2.1 1e-7 2000 a s *
          (solve_model_value_iteration m 1e-5 5000).1 a s) ∧
    compute_consumption_loss sigma a_max Na =
      (if sigma = 1 then
        Real.exp ((economyValue (nbcEconomy sigma a_max Na) -
            economyValue (bcEconomy sigma a_max Na)) *
          (1 - (bcEconomy sigma a_max Na).beta)) - 1
      else
        (economyValue (nbcEconomy sigma a_max Na) /
            economyValue (bcEconomy sigma a_max Na)) ^
          ((1 : ℝ) / (1 - sigma)) - 1) := by
  refine ⟨fun m => rfl, ?_⟩
  unfold compute_consumption_loss
  split_ifs with h
  · rw [Real.exp_one_rpow]
  · rfl

/-! ## Claim C7: non-convergence handling of the value-iteration solver -/

/-- The `n`-th Bellman value iterate from the zero initialization. -/
def vIter (m : Model) (n : ℕ) : ℕ → ℕ → ℝ :=
  (fun v => TcellV m (util m).2 (util m).1 v)^[n] (fun _ _ => 0)

lemma vIter_zero (m : Model) : vIter m 0 = fun _ _ => 0 := rfl

lemma vIter_succ (m : Model) (n : ℕ) :
    vIter m (n + 1) = TcellV m (util m).2 (util m).1 (vIter m n) := by
  rw [vIter, Function.iterate_succ_apply']
  rfl

/-- The loop state after `n` executed sweeps. -/
def stateAt (m : Model) (tol : ℝ) : ℕ → VIState
  | 0 => viInit tol
  | n + 1 =>
    { v := vIter m (n + 1)
      policy := TcellPol m (util m).2 (util m).1 (vIter m n)
      gamma := TcellGam m (util m).2 (util m).1 (vIter m n)
      error := supErr m (vIter m n) (vIter m (n + 1))
      iter := n + 1 }

lemma viLoop_zero (m : Model) (u c : ℕ → ℕ → ℕ → ℝ) (tol : ℝ) (st : VIState) :
    viLoop m u c tol 0 st = st := rfl

lemma viLoop_succ (m : Model) (u c : ℕ → ℕ → ℕ → ℝ) (tol : ℝ) (k : ℕ)
    (st : VIState) :
    viLoop m u c tol (k + 1) st =
      if st.error ≤ tol then st else viLoop m u c tol k (viStep m u c st) := rfl

lemma viStep_stateAt (m : Model) (tol : ℝ) (n : ℕ) :
    viStep m (util m).2 (util m).1 (stateAt m tol n) = stateAt m tol (n + 1) := by
  cases n with
  | zero =>
    show viStep m (util m).2 (util m).1 (viInit tol) = _
    simp only [viStep, viInit, stateAt, vIter_succ, vIter_zero]
  | succ n =>
    simp only [viStep, stateAt, vIter_succ]

lemma viLoop_exhaust (m : Model) (tol : ℝ) (k : ℕ) :
    ∀ n, 1 ≤ n →
      (∀ j, n ≤ j → j < n + k → tol < supErr m (vIter m (j - 1)) (vIter m j)) →
      viLoop m (util m).2 (util m).1 tol k (stateAt m tol n) =
        stateAt m tol (n + k) := by
  induction k with
  | zero => intro n _ _; rfl
  | succ k ih =>
    intro n hn h
    obtain ⟨n', rfl⟩ : ∃ n', n = n' + 1 := ⟨n - 1, by omega⟩
    have herr : tol < (stateAt m tol (n' + 1)).error := by
      have := h (n' + 1) le_rfl (by omega)
      simpa [stateAt, Nat.add_sub_cancel] using this
    rw [viLoop_succ, if_neg (not_le.2 herr), viStep_stateAt]
    rw [ih (n' + 1 + 1) (by omega) (fun j hj1 hj2 => h j (by omega) (by omega))]
    congr 1
    omega

/-- **C7 (amended)**: when the stopping tolerance is not reached in the first
`max_iter - 1` sweeps, the value-iteration solver is non-fatal: it runs
exactly `max_iter` sweeps and still returns the last iterate
`(v, policy, gamma)` to the caller.  The failure report is only a print; the
returned value carries no convergence flag and no iteration count (see the
counterexample for the latter). -/
theorem claim_C7_amended_returns_last_iterate (m : Model) (tol : ℝ)
    (max_iter : ℕ) (hmax : 1 ≤ max_iter)
    (hstall : ∀ j, 1 ≤ j → j < max_iter →
      tol < supErr m (vIter m (j - 1)) (vIter m j)) :
    solve_model_value_iteration m tol max_iter =
      (vIter m max_iter,
        TcellPol m (util m).2 (util m).1 (vIter m (max_iter - 1)),
        TcellGam m (util m).2 (util m).1 (vIter m (max_iter - 1))) ∧
    viIters m tol max_iter = max_iter := by
  obtain ⟨K, rfl⟩ : ∃ K, max_iter = K + 1 := ⟨max_iter - 1, by omega⟩
  have hrun : viRun m tol (K + 1) = stateAt m tol (K + 1) := by
    rw [viRun]
    show viLoop m (util m).2 (util m).1 tol (K + 1) (stateAt m tol 0) = _
    rw [viLoop_succ,
      if_neg (show ¬ (stateAt m tol 0).error ≤ tol from by
        show ¬ (tol + 1 ≤ tol)
        linarith),
      viStep_stateAt,
      viLoop_exhaust m tol K 1 le_rfl
        (fun j hj1 hj2 => hstall j hj1 (by omega))]
    congr 1
    omega
  constructor
  · show ((viRun m tol (K + 1)).v, (viRun m tol (K + 1)).policy,
      (viRun m tol (K + 1)).gamma) = _
    rw [hrun]
    simp only [stateAt, Nat.add_sub_cancel]
  · rw [viIters, hrun]
    rfl

/-- Witness for `claim_C7_amended_returns_last_iterate` at `m7`,
`max_iter = 1`. -/
theorem claim_C7_amended_witness :
    solve_model_value_iteration m7 (1 / 2) 1 =
      (vIter m7 1,
        TcellPol m7 (util m7).2 (util m7).1 (vIter m7 0),
        TcellGam m7 (util m7).2 (util m7).1 (vIter m7 0)) ∧
    viIters m7 (1 / 2) 1 = 1 := by
  have h := claim_C7_amended_returns_last_iterate m7 (1 / 2) 1 le_rfl
    (fun j hj1 hj2 => absurd (hj1.trans_lt hj2) (by omega))
  simpa using h

lemma m7_U : U_func m7 1 = -1 := by
  rw [U_func, if_neg (show ¬ m7.sigma = 1 from by norm_num [m7])]
  rw [show (1 : ℝ) - m7.sigma = -1 from by norm_num [m7]]
  rw [Real.rpow_neg_one]
  norm_num

lemma m7_util_u (a0 s0 a1 : ℕ) : util_u m7 a0 s0 a1 = -1 := by
  rw [util_u, m7_util_c, if_neg (by norm_num), m7_U]

lemma m7_feas (a0 s0 : ℕ) : feas m7 (util_c m7) a0 s0 = {0} := by
  simp only [feas]
  rw [show m7.Na = 1 from rfl, Finset.range_one, Finset.filter_singleton,
    if_pos (show 0 < util_c m7 a0 s0 0 from by rw [m7_util_c]; norm_num)]

lemma m7_lastFeas (a0 s0 : ℕ) : lastFeas m7 (util_c m7) a0 s0 = 0 := by
  rw [lastFeas, m7_feas, Finset.max_singleton, WithBot.unbot'_coe]

lemma m7_vcand (v : ℕ → ℕ → ℝ) (a0 s0 a1 : ℕ) :
    v_cand m7 (util m7).2 v a0 s0 a1 = -1 := by
  rw [v_cand]
  show util_u m7 a0 s0 a1 + m7.beta * _ = -1
  rw [m7_util_u, show m7.beta = 0 from rfl]
  ring

lemma Iic_zero_nat : (Finset.Iic (0 : ℕ)) = {0} := by
  ext i
  simp [Nat.le_zero]

lemma m7_TcellV (v : ℕ → ℕ → ℝ) (a0 s0 : ℕ) :
    TcellV m7 (util m7).2 (util m7).1 v a0 s0 = -1 := by
  show (Finset.Iic (lastFeas m7 (util_c m7) a0 s0)).sup' Finset.nonempty_Iic
    (v_cand m7 (util m7).2 v a0 s0) = -1
  rw [m7_lastFeas]
  apply le_antisymm
  · exact Finset.sup'_le _ _ fun b _ => le_of_eq (m7_vcand v a0 s0 b)
  · exact Finset.le_sup'_of_le _ (Finset.mem_Iic.2 le_rfl)
      (le_of_eq (m7_vcand v a0 s0 0).symm)

lemma m7_TcellPol (v : ℕ → ℕ → ℝ) (a0 s0 : ℕ) :
    TcellPol m7 (util m7).2 (util m7).1 v a0 s0 = 0 := by
  have h := Finset.min'_mem _
    (TcellPol_filter_nonempty m7 (util m7).2 (util m7).1 v a0 s0)
  rw [Finset.mem_filter, Finset.mem_Iic] at h
  have hle : TcellPol m7 (util m7).2 (util m7).1 v a0 s0 ≤
      lastFeas m7 (util_c m7) a0 s0 := h.1
  rw [m7_lastFeas] at hle
  exact Nat.le_zero.1 hle

lemma m7_TcellGam (v : ℕ → ℕ → ℝ) (a0 s0 : ℕ) :
    TcellGam m7 (util m7).2 (util m7).1 v a0 s0 = 1 := by
  show m7.a_vals a0 + m7.y_vals s0 -
      m7.a_vals (TcellPol m7 (util m7).2 (util m7).1 v a0 s0) /
        R_func m7 (m7.a_vals (TcellPol m7 (util m7).2 (util m7).1 v a0 s0)) = 1
  rw [m7_TcellPol]
  show (0 : ℝ) + 1 - 0 / R_func m7 0 = 1
  rw [zero_div]
  norm_num

lemma m7_supErr (v vn : ℕ → ℕ → ℝ) : supErr m7 v vn = |v 0 0 - vn 0 0| := by
  show ((((Finset.range 1) ×ˢ (Finset.range 1)).image fun p =>
    |v p.1 p.2 - vn p.1 p.2|).max).unbot' 0 = _
  rw [Finset.range_one, Finset.singleton_product_singleton,
    Finset.image_singleton, Finset.max_singleton, WithBot.unbot'_coe]

lemma m7_viStep (st : VIState) :
    viStep m7 (util m7).2 (util m7).1 st =
      ⟨fun _ _ => -1, fun _ _ => 0, fun _ _ => 1,
        |st.v 0 0 - (-1)|, st.iter + 1⟩ := by
  simp only [viStep, VIState.mk.injEq]
  refine ⟨funext fun a0 => funext fun s0 => m7_TcellV st.v a0 s0,
    funext fun a0 => funext fun s0 => m7_TcellPol st.v a0 s0,
    funext fun a0 => funext fun s0 => m7_TcellGam st.v a0 s0, ?_, trivial⟩
  rw [m7_supErr, m7_TcellV]

lemma m7_run1 : viRun m7 (1 / 2) 1 =
    ⟨fun _ _ => -1, fun _ _ => 0, fun _ _ => 1, 1, 1⟩ := by
  rw [viRun, viLoop_succ, if_neg (show ¬ ((viInit ((1 : ℝ) / 2)).error ≤ 1 / 2)
    from by norm_num [viInit]), viLoop_zero, m7_viStep]
  simp only [viInit, VIState.mk.injEq]
  norm_num

lemma m7_run3 : viRun m7 (1 / 2) 3 =
    ⟨fun _ _ => -1, fun _ _ => 0, fun _ _ => 1, 0, 2⟩ := by
  rw [viRun, viLoop_succ, if_neg (show ¬ ((viInit ((1 : ℝ) / 2)).error ≤ 1 / 2)
    from by norm_num [viInit]), m7_viStep]
  rw [viLoop_succ, if_neg (by norm_num [viInit]), m7_viStep]
  rw [viLoop_succ, if_pos (by norm_num)]
  simp only [viInit, VIState.mk.injEq]
  norm_num

/-- **C7 (counterexample)**: two runs of the value-iteration solver on the
same model - one exhausting `max_iter = 1` without reaching the tolerance
(reported as failed), one converging after 2 of `max_iter = 3` sweeps -
return identical values to the caller.  Hence the returned value carries
neither a convergence flag nor an iteration count, contradicting the claim
that the caller receives them alongside the solver outputs. -/
theorem claim_C7_counterexample :
    solve_model_value_iteration m7 (1 / 2) 1 =
      solve_model_value_iteration m7 (1 / 2) 3 ∧
    viIters m7 (1 / 2) 1 = 1 ∧ viIters m7 (1 / 2) 3 = 2 ∧
    viFailedFlag m7 (1 / 2) 1 ∧ ¬ viFailedFlag m7 (1 / 2) 3 ∧
    (1 / 2 : ℝ) < (viRun m7 (1 / 2) 1).error := by
  refine ⟨?_, ?_, ?_, ?_, ?_, ?_⟩
  · show ((viRun m7 (1 / 2) 1).v, (viRun m7 (1 / 2) 1).policy,
      (viRun m7 (1 / 2) 1).gamma) =
      ((viRun m7 (1 / 2) 3).v, (viRun m7 (1 / 2) 3).policy,
        (viRun m7 (1 / 2) 3).gamma)
    rw [m7_run1, m7_run3]
  · rw [viIters, m7_run1]
  · rw [viIters, m7_run3]
  · show viIters m7 (1 / 2) 1 = 1
    rw [viIters, m7_run1]
  · show ¬ viIters m7 (1 / 2) 3 = 3
    rw [viIters, m7_run3]
    simp
  · rw [m7_run1]
    norm_num

/-! ## Claims C3 and C8: the Euler-equation operator `K` -/

lemma interpF_const (xs ys : ℕ → ℝ) (n : ℕ) (x k : ℝ)
    (h : ∀ i, ys i = k) : interpF xs ys n x = k := by
  simp only [interpF, h]
  ring

lemma brentq_ok {f : ℝ → ℝ} {a b r : ℝ} (h : brentq f a b = Except.ok r) :
    f r = 0 ∧ (r = a ∨ r = b ∨ r ∈ Set.Ioo a b) := by
  unfold brentq at h
  split_ifs at h with h1 h2 h3 h4
  · obtain rfl : b = r := by simpa using h
    exact ⟨h2, Or.inr (Or.inl rfl)⟩
  · obtain rfl : a = r := by simpa using h
    exact ⟨h3, Or.inl rfl⟩
  · obtain rfl : h4.choose = r := by simpa using h
    obtain ⟨hmem, hroot⟩ := h4.choose_spec
    exact ⟨hroot, Or.inr (Or.inr hmem)⟩

lemma brentq_right (f : ℝ → ℝ) (a b : ℝ) (h0 : f b = 0) :
    brentq f a b = Except.ok b := by
  rw [brentq, if_neg (fun hc => by rw [h0, mul_zero] at hc; exact lt_irrefl 0 hc),
    if_pos h0]

lemma brentq_error_sign (f : ℝ → ℝ) (a b : ℝ) (h : f a * f b > 0) :
    brentq f a b = Except.error "f(a) and f(b) must have different signs" := by
  rw [brentq, if_pos h]

/-- **C3**: whenever a `K` sweep succeeds, each recorded consumption `c` is an
exact zero of the Euler residual `euler_diff` (marginal utility of `c` minus
the maximum of the discounted expected marginal utility of interpolated
future consumption and the constrained alternative), lies in the root bracket
`[1e-8, a + y(s)]`, and the recorded asset policy is
`R_save * (a - c + y(s))`. -/
theorem claim_C3_euler_cell (m : Model) (gamma gnew apol : ℕ → ℕ → ℝ)
    (hb : ∀ i s, i < m.Na → s < m.Ns →
      (1e-8 : ℝ) < m.a_vals i + m.y_vals s)
    (hK : K m gamma = Except.ok (gnew, apol)) :
    ∀ i s, i < m.Na → s < m.Ns →
      euler_diff m (gnew i s) (m.a_vals i) s gamma = 0 ∧
      gnew i s ∈ Set.Icc (1e-8 : ℝ) (m.a_vals i + m.y_vals s) ∧
      apol i s = m.R_save * (m.a_vals i - gnew i s + m.y_vals s) := by
  rw [K] at hK
  split_ifs at hK with hall
  · rw [Except.ok.injEq, Prod.mk.injEq] at hK
    obtain ⟨hg, ha⟩ := hK
    intro i s hi hs
    obtain ⟨r, hr⟩ := hall i hi s hs
    have hroot : Kroot m gamma i s = r := by
      rw [Kroot, hr]
      rfl
    have hbq := brentq_ok (f := fun c => euler_diff m c (m.a_vals i) s gamma)
      (a := (1e-8 : ℝ)) (b := m.a_vals i + m.y_vals s) hr
    have hgr : gnew i s = r := by
      rw [← hg]
      exact hroot
    refine ⟨?_, ?_, ?_⟩
    · rw [hgr]
      exact hbq.1
    · rw [hgr]
      rcases hbq.2 with rfl | rfl | hIoo
      · exact ⟨le_rfl, (hb i s hi hs).le⟩
      · exact ⟨(hb i s hi hs).le, le_rfl⟩
      · exact ⟨hIoo.1.le, hIoo.2.le⟩
    · rw [← ha, hgr]
      show m.R_save * (m.a_vals i - Kroot m gamma i s + m.y_vals s) =
        m.R_save * (m.a_vals i - r + m.y_vals s)
      rw [hroot]

/-- Witness model for C3 and C8: two asset points `0, 1`, one state, log-like
marginal utility (`σ = 1`), `β = 1/2`, `R = 1`, income `1`. -/
def mE : Model :=
  { beta := 1 / 2, sigma := 1, R_save := 1, R_borrow := 1, Na := 2, Ns := 1,
    a_vals := fun i => (i : ℝ), y_vals := fun _ => 1, P := fun _ _ => 1 }

/-- Second model for the C8 counterexample: same economy on the shifted asset
grid `5, 9`. -/
def mEb : Model :=
  { beta := 1 / 2, sigma := 1, R_save := 1, R_borrow := 1, Na := 2, Ns := 1,
    a_vals := fun i => 5 + 4 * (i : ℝ), y_vals := fun _ => 1, P := fun _ _ => 1 }

lemma euler_diff_eval (m : Model) (hNs : m.Ns = 1) (hsig : m.sigma = 1)
    (hy : ∀ s, m.y_vals s = 1) (hP : ∀ s s1, m.P s s1 = 1)
    (hbeta : m.beta = 1 / 2) (hR : m.R_save = 1) (k c a : ℝ) (s : ℕ) :
    euler_diff m c a s (fun _ _ => k) =
      c⁻¹ - max (1 / 2 * k⁻¹) ((a + 1)⁻¹) := by
  have hup : ∀ x : ℝ, u_prime m x = x⁻¹ := fun x => by
    rw [u_prime, hsig, Real.rpow_neg_one]
  rw [euler_diff, hNs, Finset.sum_range_one,
    interpF_const _ _ _ _ k (fun _ => rfl), hy s, hP s 0,
    hup, hup, hup, hbeta, hR, mul_one, mul_one]

/-- Witness for `claim_C3_euler_cell`: at `mE` with the constant consumption
policy `1`, the sweep succeeds (every bracket has an exact root at its right
endpoint) and the cell `(0, 0)` satisfies the Euler/bracket/asset-policy
conclusions. -/
theorem claim_C3_witness :
    ∃ g ap, K mE (fun _ _ => 1) = Except.ok (g, ap) ∧
      (euler_diff mE (g 0 0) (mE.a_vals 0) 0 (fun _ _ => 1) = 0 ∧
        g 0 0 ∈ Set.Icc (1e-8 : ℝ) (mE.a_vals 0 + mE.y_vals 0) ∧
        ap 0 0 = mE.R_save * (mE.a_vals 0 - g 0 0 + mE.y_vals 0)) := by
  have hall : ∀ i, i < mE.Na → ∀ s, s < mE.Ns →
      ∃ r, Kcell mE (fun _ _ => 1) i s = Except.ok r := by
    intro i hi s _
    refine ⟨mE.a_vals i + mE.y_vals s, ?_⟩
    rw [Kcell]
    apply brentq_right
    rw [euler_diff_eval mE rfl rfl (fun _ => rfl) (fun _ _ => rfl) rfl rfl,
      show mE.y_vals s = 1 from rfl]
    have h2 : i < 2 := hi
    interval_cases i
    · rw [show mE.a_vals 0 = 0 from by norm_num [mE]]
      rw [max_eq_right (by norm_num : (1 : ℝ) / 2 * 1⁻¹ ≤ ((0 : ℝ) + 1)⁻¹)]
      norm_num
    · rw [show mE.a_vals 1 = 1 from by norm_num [mE]]
      rw [max_eq_right (by norm_num : (1 : ℝ) / 2 * 1⁻¹ ≤ ((1 : ℝ) + 1)⁻¹)]
      norm_num
  have hK : K mE (fun _ _ => 1) =
      Except.ok (fun i s => Kroot mE (fun _ _ => 1) i s,
        fun i s => mE.R_save *
          (mE.a_vals i - Kroot mE (fun _ _ => 1) i s + mE.y_vals s)) := by
    rw [K, if_pos hall]
  have hb : ∀ i s, i < mE.Na → s < mE.Ns →
      (1e-8 : ℝ) < mE.a_vals i + mE.y_vals s := by
    intro i s hi _
    rw [show mE.y_vals s = 1 from rfl]
    have h2 : i < 2 := hi
    interval_cases i
    · rw [show mE.a_vals 0 = 0 from by norm_num [mE]]
      norm_num
    · rw [show mE.a_vals 1 = 1 from by norm_num [mE]]
      norm_num
  refine ⟨_, _, hK, ?_⟩
  exact claim_C3_euler_cell mE (fun _ _ => 1) _ _ hb hK 0 0
    (show (0 : ℕ) < 2 from by norm_num) (show (0 : ℕ) < 1 from by norm_num)

/-- **C8 (amended)**: if at some in-grid cell the Euler residual has a
same-sign product at the two bracket endpoints, the `K` sweep fails fatally -
no policy is produced, only the raised error - and the error is the one
produced by the first failing cell; it is the root-finder's fixed message and
carries no `(a, s)` coordinates (see the counterexample). -/
theorem claim_C8_amended_fatal_unlocated (m : Model) (gamma : ℕ → ℕ → ℝ)
    (h : ∃ i s, i < m.Na ∧ s < m.Ns ∧
      euler_diff m 1e-8 (m.a_vals i) s gamma *
        euler_diff m (m.a_vals i + m.y_vals s) (m.a_vals i) s gamma > 0) :
    K m gamma = Except.error (KfirstErr m gamma) := by
  have hnall : ¬ (∀ i, i < m.Na → ∀ s, s < m.Ns →
      ∃ r, Kcell m gamma i s = Except.ok r) := by
    intro hall
    obtain ⟨i, s, hi, hs, hsign⟩ := h
    obtain ⟨r, hr⟩ := hall i hi s hs
    rw [Kcell, brentq_error_sign (fun c => euler_diff m c (m.a_vals i) s gamma)
      1e-8 (m.a_vals i + m.y_vals s) hsign] at hr
    exact absurd hr (by simp)
  rw [K, if_neg hnall]

lemma mE_bad_cell (i s : ℕ) (hi : i < 2) :
    euler_diff mE 1e-8 (mE.a_vals i) s (fun _ _ => 1e-10) *
      euler_diff mE (mE.a_vals i + mE.y_vals s) (mE.a_vals i) s
        (fun _ _ => 1e-10) > 0 := by
  have hfa : euler_diff mE 1e-8 (mE.a_vals i) s (fun _ _ => 1e-10) < 0 := by
    rw [euler_diff_eval mE rfl rfl (fun _ => rfl) (fun _ _ => rfl) rfl rfl]
    rw [sub_neg]
    exact lt_max_of_lt_left (by norm_num)
  have hfb : euler_diff mE (mE.a_vals i + mE.y_vals s) (mE.a_vals i) s
      (fun _ _ => 1e-10) < 0 := by
    rw [euler_diff_eval mE rfl rfl (fun _ => rfl) (fun _ _ => rfl) rfl rfl]
    rw [sub_neg, show mE.y_vals s = 1 from rfl]
    interval_cases i
    · rw [show mE.a_vals 0 = 0 from by norm_num [mE]]
      exact lt_max_of_lt_left (by norm_num)
    · rw [show mE.a_vals 1 = 1 from by norm_num [mE]]
      exact lt_max_of_lt_left (by norm_num)
  exact mul_pos_of_neg_of_neg hfa hfb

lemma mEb_bad_cell (i s : ℕ) (hi : i < 2) :
    euler_diff mEb 1e-8 (mEb.a_vals i) s (fun _ _ => 1e-10) *
      euler_diff mEb (mEb.a_vals i + mEb.y_vals s) (mEb.a_vals i) s
        (fun _ _ => 1e-10) > 0 := by
  have hfa : euler_diff mEb 1e-8 (mEb.a_vals i) s (fun _ _ => 1e-10) < 0 := by
    rw [euler_diff_eval mEb rfl rfl (fun _ => rfl) (fun _ _ => rfl) rfl rfl]
    rw [sub_neg]
    exact lt_max_of_lt_left (by norm_num)
  have hfb : euler_diff mEb (mEb.a_vals i + mEb.y_vals s) (mEb.a_vals i) s
      (fun _ _ => 1e-10) < 0 := by
    rw [euler_diff_eval mEb rfl rfl (fun _ => rfl) (fun _ _ => rfl) rfl rfl]
    rw [sub_neg, show mEb.y_vals s = 1 from rfl]
    interval_cases i
    · rw [show mEb.a_vals 0 = 5 from by norm_num [mEb]]
      exact lt_max_of_lt_left (by norm_num)
    · rw [show mEb.a_vals 1 = 9 from by norm_num [mEb]]
      exact lt_max_of_lt_left (by norm_num)
  exact mul_pos_of_neg_of_neg hfa hfb

lemma mE_Kcell_bad (i s : ℕ) (hi : i < 2) :
    Kcell mE (fun _ _ => 1e-10) i s =
      Except.error "f(a) and f(b) must have different signs" := by
  rw [Kcell]
  exact brentq_error_sign _ _ _ (mE_bad_cell i s hi)

lemma mEb_Kcell_bad (i s : ℕ) (hi : i < 2) :
    Kcell mEb (fun _ _ => 1e-10) i s =
      Except.error "f(a) and f(b) must have different signs" := by
  rw [Kcell]
  exact brentq_error_sign _ _ _ (mEb_bad_cell i s hi)

lemma KfailIdx_mE : KfailIdx mE (fun _ _ => 1e-10) = 0 := by
  rw [KfailIdx]
  have hfull : (((Finset.range mE.Na) ×ˢ (Finset.range mE.Ns)).filter fun p =>
      ¬ ∃ r, Kcell mE (fun _ _ => 1e-10) p.1 p.2 = Except.ok r) =
      (Finset.range mE.Na) ×ˢ (Finset.range mE.Ns) := by
    apply Finset.filter_true_of_mem
    intro p hp
    rw [Finset.mem_product, Finset.mem_range, Finset.mem_range] at hp
    rw [mE_Kcell_bad p.1 p.2 hp.1]
    simp
  rw [hfull]
  have hmem : (0 : ℕ) ∈ ((Finset.range mE.Na) ×ˢ
      (Finset.range mE.Ns)).image fun p => p.1 * mE.Ns + p.2 := by
    refine Finset.mem_image.2 ⟨(0, 0), ?_, rfl⟩
    rw [Finset.mem_product, Finset.mem_range, Finset.mem_range]
    exact ⟨by norm_num [mE], by norm_num [mE]⟩
  have hne : (((Finset.range mE.Na) ×ˢ (Finset.range mE.Ns)).image fun p =>
      p.1 * mE.Ns + p.2).Nonempty := ⟨0, hmem⟩
  rw [← Finset.coe_min' hne, WithTop.untop'_coe]
  exact Nat.le_zero.1 (Finset.min'_le _ 0 hmem)

lemma KfailIdx_mEb : KfailIdx mEb (fun _ _ => 1e-10) = 0 := by
  rw [KfailIdx]
  have hfull : (((Finset.range mEb.Na) ×ˢ (Finset.range mEb.Ns)).filter fun p =>
      ¬ ∃ r, Kcell mEb (fun _ _ => 1e-10) p.1 p.2 = Except.ok r) =
      (Finset.range mEb.Na) ×ˢ (Finset.range mEb.Ns) := by
    apply Finset.filter_true_of_mem
    intro p hp
    rw [Finset.mem_product, Finset.mem_range, Finset.mem_range] at hp
    rw [mEb_Kcell_bad p.1 p.2 hp.1]
    simp
  rw [hfull]
  have hmem : (0 : ℕ) ∈ ((Finset.range mEb.Na) ×ˢ
      (Finset.range mEb.Ns)).image fun p => p.1 * mEb.Ns + p.2 := by
    refine Finset.mem_image.2 ⟨(0, 0), ?_, rfl⟩
    rw [Finset.mem_product, Finset.mem_range, Finset.mem_range]
    exact ⟨by norm_num [mEb], by norm_num [mEb]⟩
  have hne : (((Finset.range mEb.Na) ×ˢ (Finset.range mEb.Ns)).image fun p =>
      p.1 * mEb.Ns + p.2).Nonempty := ⟨0, hmem⟩
  rw [← Finset.coe_min' hne, WithTop.untop'_coe]
  exact Nat.le_zero.1 (Finset.min'_le _ 0 hmem)

lemma KfirstErr_mE : KfirstErr mE (fun _ _ => 1e-10) =
    "f(a) and f(b) must have different signs" := by
  rw [KfirstErr, KfailIdx_mE,
    show ((0 : ℕ) / mE.Ns) = 0 from by norm_num,
    show ((0 : ℕ) % mE.Ns) = 0 from by norm_num,
    mE_Kcell_bad 0 0 (by norm_num)]
  rfl

lemma KfirstErr_mEb : KfirstErr mEb (fun _ _ => 1e-10) =
    "f(a) and f(b) must have different signs" := by
  rw [KfirstErr, KfailIdx_mEb,
    show ((0 : ℕ) / mEb.Ns) = 0 from by norm_num,
    show ((0 : ℕ) % mEb.Ns) = 0 from by norm_num,
    mEb_Kcell_bad 0 0 (by norm_num)]
  rfl

/-- **C8 (counterexample)**: two economies whose Euler brackets have no sign
change at every cell - with different offending asset coordinates (`a = 0`
versus `a = 5`) - make `K` fail with the identical fixed error value, so the
caller is not informed of the offending `(a, s)` coordinates. -/
theorem claim_C8_counterexample :
    K mE (fun _ _ => 1e-10) = K mEb (fun _ _ => 1e-10) ∧
    K mE (fun _ _ => 1e-10) =
      Except.error "f(a) and f(b) must have different signs" ∧
    mE.a_vals 0 ≠ mEb.a_vals 0 := by
  have h1 : K mE (fun _ _ => 1e-10) =
      Except.error "f(a) and f(b) must have different signs" := by
    have hnall : ¬ (∀ i, i < mE.Na → ∀ s, s < mE.Ns →
        ∃ r, Kcell mE (fun _ _ => 1e-10) i s = Except.ok r) := by
      intro hall
      obtain ⟨r, hr⟩ := hall 0 (by norm_num [mE]) 0 (by norm_num [mE])
      rw [mE_Kcell_bad 0 0 (by norm_num)] at hr
      exact absurd hr (by simp)
    rw [K, if_neg hnall, KfirstErr_mE]
  have h2 : K mEb (fun _ _ => 1e-10) =
      Except.error "f(a) and f(b) must have different signs" := by
    have hnall : ¬ (∀ i, i < mEb.Na → ∀ s, s < mEb.Ns →
        ∃ r, Kcell mEb (fun _ _ => 1e-10) i s = Except.ok r) := by
      intro hall
      obtain ⟨r, hr⟩ := hall 0 (by norm_num [mEb]) 0 (by norm_num [mEb])
      rw [mEb_Kcell_bad 0 0 (by norm_num)] at hr
      exact absurd hr (by simp)
    rw [K, if_neg hnall, KfirstErr_mEb]
  refine ⟨h1.trans h2.symm, h1, ?_⟩
  rw [show mE.a_vals 0 = 0 from by norm_num [mE],
    show mEb.a_vals 0 = 5 from by norm_num [mEb]]
  norm_num

/-- Witness for `claim_C8_amended_fatal_unlocated` at `mE`. -/
theorem claim_C8_amended_witness :
    (∃ i s, i < mE.Na ∧ s < mE.Ns ∧
      euler_diff mE 1e-8 (mE.a_vals i) s (fun _ _ => 1e-10) *
        euler_diff mE (mE.a_vals i + mE.y_vals s) (mE.a_vals i) s
          (fun _ _ => 1e-10) > 0) ∧
    K mE (fun _ _ => 1e-10) =
      Except.error (KfirstErr mE (fun _ _ => 1e-10)) := by
  have hbad : ∃ i s, i < mE.Na ∧ s < mE.Ns ∧
      euler_diff mE 1e-8 (mE.a_vals i) s (fun _ _ => 1e-10) *
        euler_diff mE (mE.a_vals i + mE.y_vals s) (mE.a_vals i) s
          (fun _ _ => 1e-10) > 0 :=
    ⟨0, 0, by norm_num [mE], by norm_num [mE], mE_bad_cell 0 0 (by norm_num)⟩
  exact ⟨hbad, claim_C8_amended_fatal_unlocated mE (fun _ _ => 1e-10) hbad⟩

end





